import Mathlib

/-!
Verification of the beat-synchronized audio resynthesis core of the
hardstyleifier repository.

The TypeScript code is shallowly embedded: JavaScript number arithmetic is
modelled exactly over `ℚ`, sample buffers (`Float32Array`) become `List ℚ`,
16-bit PCM output becomes `List ℤ`, beat timestamp arrays become `List ℚ`,
and `Math.random()` outcomes are injected as explicit parameters.  Writes to
a typed array at an out-of-range index (negative or past the end) are no-ops
in JavaScript; the embedding makes that guard explicit.
-/

namespace Hardstyle

attribute [local semireducible] Rat.mul Rat.add Rat.inv Rat.sub

/-- `Math.max(-1, Math.min(1, x))` — the clamp used by every quantizer. -/
def clamp1 (x : ℚ) : ℚ := max (-1) (min 1 x)

/-- One sample of the 16-bit quantizer of `processAudioWithBeats`
(src/unnamed/part_000, lines 70-72):
`const sample = Math.max(-1, Math.min(1, outputBuffer[i]));`
`int16Buffer[i] = Math.floor(sample * 32767);` -/
def quantizeSample (x : ℚ) : ℤ := ⌊clamp1 x * 32767⌋

/-- The quantization loop of `processAudioWithBeats` (src/unnamed/part_000,
lines 68-73): every sample is mapped by the same expression. -/
def quantizeToPCM16 (buf : List ℚ) : List ℤ := buf.map quantizeSample

/-- Truncation toward zero on `ℚ`, the integer conversion performed by
`DataView.setInt16` on a JavaScript number (ToIntegerOrInfinity). -/
def truncQ (x : ℚ) : ℤ := if 0 ≤ x then ⌊x⌋ else -⌊-x⌋

/-- Wrap an integer into the signed 16-bit range the way `DataView.setInt16`
stores it (modulo 2^16, reinterpreted as signed). -/
def toInt16 (n : ℤ) : ℤ := (n + 32768) % 65536 - 32768

/-- The value `audioBufferToWav` (src/app/brainrotProcessor.ts, lines 217-218)
computes before the `setInt16` store:
`let sample = Math.max(-1, Math.min(1, channels[i][offset]));`
`sample = sample < 0 ? sample * 0x8000 : sample * 0x7fff;` -/
def wavPreWrap (x : ℚ) : ℤ :=
  let s := clamp1 x
  if s < 0 then truncQ (s * 32768) else truncQ (s * 32767)

/-- One sample of `audioBufferToWav` as it lands in the WAV data chunk,
including the 16-bit store semantics of `view.setInt16`. -/
def wavQuantizeSample (x : ℚ) : ℤ := toInt16 (wavPreWrap x)

/-- Modelled from the claim and spec section 4.1 for comparison with the
code: clamp to `[-1, 1]`, scale by 32767, and round toward zero. -/
def quantizeTowardZero (x : ℚ) : ℤ := truncQ (clamp1 x * 32767)

/-- `outputBuffer[i] += v` on a `Float32Array`: the overlay loops guard the
upper bound explicitly (`outputIndex < totalSamples`), and a store at a
negative index is a silent no-op by typed-array semantics. -/
def writeAdd (buf : List ℚ) (i : ℤ) (v : ℚ) : List ℚ :=
  if 0 ≤ i ∧ i < (buf.length : ℤ) then buf.set i.toNat ((buf[i.toNat]?).getD 0 + v)
  else buf

/-- `outputData[i] *= g` on a `Float32Array`, same bounds behaviour. -/
def writeMul (buf : List ℚ) (i : ℤ) (g : ℚ) : List ℚ :=
  if 0 ≤ i ∧ i < (buf.length : ℤ) then buf.set i.toNat ((buf[i.toNat]?).getD 0 * g)
  else buf

/-- The percussion overlay loop shared by all mixers
(e.g. src/unnamed/part_000, lines 52-57):
`for i: if (samplePosition + i < totalSamples) output[samplePosition + i] += perc[i] * g`. -/
def overlay (g : ℚ) : List ℚ → List ℚ → ℤ → List ℚ
  | [], buf, _ => buf
  | s :: rest, buf, p => overlay g rest (writeAdd buf p (s * g)) (p + 1)

/-- `const nextBeat = arr[index + 1] || beatTime + 0.5;`
(src/unnamed/part_001, line 78).  A `0` successor is falsy in JavaScript. -/
def nextBeatOf (t : ℚ) : Option ℚ → ℚ
  | some n => if n = 0 then t + 1/2 else n
  | none => t + 1/2

/-- One iteration of the beat loop of the browser tick-tock mixer
(src/unnamed/part_001, lines 76-97): tick at `⌊t·sr⌋` with gain 0.4, tock at
the half-beat position with gain 0.4. -/
def processBeat1 (tick tock : List ℚ) (sr : ℕ) (buf : List ℚ) (t : ℚ)
    (next? : Option ℚ) : List ℚ :=
  overlay (2/5) tock (overlay (2/5) tick buf ⌊t * (sr : ℚ)⌋)
    ⌊(t + |nextBeatOf t next? - t| / 2) * (sr : ℚ)⌋

/-- `beats.forEach(...)` of the browser tick-tock mixer, carrying each beat
together with its successor in the array. -/
def mixBeats1 (tick tock : List ℚ) (sr : ℕ) : List ℚ → List ℚ → List ℚ
  | buf, [] => buf
  | buf, [t] => processBeat1 tick tock sr buf t none
  | buf, t :: t' :: rest =>
      mixBeats1 tick tock sr (processBeat1 tick tock sr buf t (some t')) (t' :: rest)

/-- The sample-domain core of `processAudioInBrowser`
(src/unnamed/part_001, lines 66-97): copy the original at half volume, then
overlay tick and tock at every detected beat. -/
def processAudioInBrowserTickTock (original tick tock : List ℚ) (sr : ℕ)
    (beats : List ℚ) : List ℚ :=
  mixBeats1 tick tock sr (original.map (· * (1/2))) beats

/-- One iteration of the beat loop of the server mixer
(src/unnamed/part_000, lines 46-66).  For the last beat `arr[index + 1]` is
`undefined`, so `halfBeatPostition` is `NaN` and every tock write fails its
`outputIndex < totalSamples` check: only the tick lands. -/
def processBeat0 (tick tock : List ℚ) (sr : ℕ) (buf : List ℚ) (t : ℚ) :
    Option ℚ → List ℚ
  | some next =>
      overlay (2/5) tock (overlay (2/5) tick buf ⌊t * (sr : ℚ)⌋)
        ⌊(t + |next - t| / 2) * (sr : ℚ)⌋
  | none => overlay (2/5) tick buf ⌊t * (sr : ℚ)⌋

/-- `ticks.slice(0).forEach(...)` of the server mixer. -/
def mixBeats0 (tick tock : List ℚ) (sr : ℕ) : List ℚ → List ℚ → List ℚ
  | buf, [] => buf
  | buf, [t] => processBeat0 tick tock sr buf t none
  | buf, t :: t' :: rest =>
      mixBeats0 tick tock sr (processBeat0 tick tock sr buf t (some t')) (t' :: rest)

/-- The sample-domain core of `processAudioWithBeats`
(src/unnamed/part_000, lines 40-66): copy at half volume, then overlay. -/
def processAudioWithBeats (original tick tock : List ℚ) (sr : ℕ)
    (beats : List ℚ) : List ℚ :=
  mixBeats0 tick tock sr (original.map (· * (1/2))) beats

/-- Duck gain of src/app/audioProcessor.ts, lines 288-298: before the beat an
attack ramp `1 - progress·(1 - duckingAmount)` with
`progress = (i - duckStart)/attackSamples`; from the beat on, the constant
`duckingAmount` for the whole release window.  There is no ramp back up. -/
def duckGainA (duckingAmount : ℚ) (attackSamples : ℕ) (duckStart samplePosition i : ℤ) : ℚ :=
  if i < samplePosition then 1 - ((i - duckStart : ℤ) : ℚ) / (attackSamples : ℚ) * (1 - duckingAmount)
  else duckingAmount

/-- The `for (let i = duckStart; i < duckEnd; i++) output[i] *= gain` loop of
src/app/audioProcessor.ts; `fuel` counts the remaining iterations. -/
def duckLoopA (duckingAmount : ℚ) (attackSamples : ℕ) (duckStart samplePosition : ℤ) :
    List ℚ → ℤ → ℕ → List ℚ
  | buf, _, 0 => buf
  | buf, i, fuel + 1 =>
      duckLoopA duckingAmount attackSamples duckStart samplePosition
        (writeMul buf i (duckGainA duckingAmount attackSamples duckStart samplePosition i))
        (i + 1) fuel

/-- One beat of the ducking mixer of src/app/audioProcessor.ts
(lines 278-311): duck `[max 0 (p - attack), min len (p + release))`, then add
the kick at gain 0.5.  The half-beat position computed there is dead code. -/
def processBeatA (tick : List ℚ) (sr : ℕ) (buf : List ℚ) (t : ℚ) : List ℚ :=
  let samplePosition : ℤ := ⌊t * (sr : ℚ)⌋
  let attackSamples : ℕ := (⌊(1/100 : ℚ) * (sr : ℚ)⌋).toNat
  let releaseSamples : ℕ := (⌊(3/20 : ℚ) * (sr : ℚ)⌋).toNat
  let duckStart : ℤ := max 0 (samplePosition - attackSamples)
  let duckEnd : ℤ := min (buf.length : ℤ) (samplePosition + releaseSamples)
  let ducked := duckLoopA (1/5) attackSamples duckStart samplePosition buf duckStart
    (duckEnd - duckStart).toNat
  overlay (1/2) tick ducked samplePosition

/-- The sample-domain core of the ducking `processAudioInBrowser`
(src/app/audioProcessor.ts, lines 262-311): the original is copied at full
volume, then each beat ducks and overlays. -/
def processAudioInBrowserDucking (original tick : List ℚ) (sr : ℕ)
    (beats : List ℚ) : List ℚ :=
  beats.foldl (processBeatA tick sr) original

/-- The three-phase sidechain envelope of src/unnamed/part_002, lines 72-84,
as a function of the offset `i` from the beat position. -/
def duckEnvB (duckAmount : ℚ) (attackSamples kickDuration releaseSamples : ℕ) (i : ℕ) : ℚ :=
  if i < attackSamples then 1 - (1 - duckAmount) * ((i : ℚ) / (attackSamples : ℚ))
  else if i < kickDuration then duckAmount
  else duckAmount + (1 - duckAmount) * (((i : ℚ) - (kickDuration : ℚ)) / (releaseSamples : ℚ))

/-- The `for (i = 0; i < duckDuration && p + i < totalSamples; i++)` loop of
src/unnamed/part_002, lines 70-87. -/
def duckLoopB (duckAmount : ℚ) (attackSamples kickDuration releaseSamples : ℕ) (p : ℤ) :
    List ℚ → ℕ → ℕ → List ℚ
  | buf, _, 0 => buf
  | buf, i, fuel + 1 =>
      if p + (i : ℤ) < (buf.length : ℤ) then
        duckLoopB duckAmount attackSamples kickDuration releaseSamples p
          (writeMul buf (p + (i : ℤ))
            (duckEnvB duckAmount attackSamples kickDuration releaseSamples i))
          (i + 1) fuel
      else buf

/-- The full sidechain pass of src/unnamed/part_002 for one beat position,
with the hard-coded parameters of lines 58-60 and 67-68. -/
def applyDuckB (tick : List ℚ) (sr : ℕ) (buf : List ℚ) (p : ℤ) : List ℚ :=
  let attackSamples : ℕ := (⌊(1/100 : ℚ) * (sr : ℚ)⌋).toNat
  let releaseSamples : ℕ := (⌊(3/20 : ℚ) * (sr : ℚ)⌋).toNat
  let kickDuration : ℕ := tick.length
  duckLoopB (1/5) attackSamples kickDuration releaseSamples p buf 0
    (kickDuration + releaseSamples)

/-- One beat of src/unnamed/part_002 (lines 63-96): sidechain pass, then the
kick overlaid at gain 0.6. -/
def processBeatB (tick : List ℚ) (sr : ℕ) (buf : List ℚ) (t : ℚ) : List ℚ :=
  let p : ℤ := ⌊t * (sr : ℚ)⌋
  overlay (3/5) tick (applyDuckB tick sr buf p) p

/-- The sample-domain core of the sidechain `processAudioInBrowser`
(src/unnamed/part_002, lines 48-96): full-volume copy, then per-beat pass. -/
def processAudioInBrowserSidechain (original tick : List ℚ) (sr : ℕ)
    (beats : List ℚ) : List ℚ :=
  beats.foldl (processBeatB tick sr) original

/-- Modelled from the claim (spec sections 4.2-4.3) for comparison with the
code: the three-phase gain on the window
`[p - attackSamples, p + sustainSamples + releaseSamples)`, as a function of
the offset `o = j - p`. -/
def claimedDuckGain (duckAmount : ℚ) (attackSamples sustainSamples releaseSamples : ℕ)
    (o : ℤ) : ℚ :=
  if o < 0 then 1 - (1 - duckAmount) * (((o + attackSamples : ℤ) : ℚ) / (attackSamples : ℚ))
  else if o < (sustainSamples : ℤ) then duckAmount
  else duckAmount + (1 - duckAmount) * (((o - sustainSamples : ℤ) : ℚ) / (releaseSamples : ℚ))

/-- Modelled from the claim: multiply the claimed gain into every index of
the claimed window, clamped to buffer bounds. -/
def claimedDuckPass (duckAmount : ℚ) (attackSamples sustainSamples releaseSamples : ℕ)
    (buf : List ℚ) (p : ℤ) : List ℚ :=
  buf.mapIdx (fun j x =>
    if p - (attackSamples : ℤ) ≤ (j : ℤ) ∧
        (j : ℤ) < p + (sustainSamples : ℤ) + (releaseSamples : ℤ) then
      x * claimedDuckGain duckAmount attackSamples sustainSamples releaseSamples ((j : ℤ) - p)
    else x)

/-- Modelled from the claim: a ducking mixer whose envelope behaves as the
claim states, with the same parameters as the code. -/
def duckMixClaimed (original tick : List ℚ) (sr : ℕ) (beats : List ℚ) : List ℚ :=
  beats.foldl (fun buf t =>
    let p : ℤ := ⌊t * (sr : ℚ)⌋
    let attackSamples : ℕ := (⌊(1/100 : ℚ) * (sr : ℚ)⌋).toNat
    let releaseSamples : ℕ := (⌊(3/20 : ℚ) * (sr : ℚ)⌋).toNat
    overlay (3/5) tick
      (claimedDuckPass (1/5) attackSamples tick.length releaseSamples buf p) p) original

/-- The per-sample crossfade of src/app/brainrotProcessor.ts, lines 130-145:
`if (i < crossfadeSamples) sample *= i / crossfadeSamples;`
`if (i > sliceData.length - crossfadeSamples) sample *= (len - i) / crossfadeSamples;` -/
def fadeSample (len cross : ℕ) (i : ℕ) (x : ℚ) : ℚ :=
  let s1 := if i < cross then x * ((i : ℚ) / (cross : ℚ)) else x
  if (len : ℤ) - (cross : ℤ) < (i : ℤ) then s1 * (((len : ℚ) - (i : ℚ)) / (cross : ℚ)) else s1

/-- One slice written into the output by the crossfade compositor. -/
def processSlice (cross : ℕ) (s : List ℚ) : List ℚ :=
  s.mapIdx (fun i x => fadeSample s.length cross i x)

/-- The crossfade compositor of src/app/brainrotProcessor.ts, lines 120-149:
slices are written sequentially at the running cursor into a buffer whose
size is the sum of their lengths. -/
def composite (cross : ℕ) (slices : List (List ℚ)) : List ℚ :=
  (slices.map (processSlice cross)).flatten

/-- A `SongSlice` of src/app/brainrotProcessor.ts, lines 22-26. -/
structure Slice where
  audioData : List ℚ
  startTime : ℚ
  duration : ℚ
deriving DecidableEq

/-- Resolve one relative index of `TypedArray.prototype.slice`: negative
indices count from the end, and both ends are clamped to `[0, len]`. -/
def jsIndex (len : ℕ) (i : ℤ) : ℕ :=
  if i < 0 then ((len : ℤ) + i).toNat else min i.toNat len

/-- `audioData.slice(startSample, endSample)` — an independent copy of the
index range, with JavaScript's clamping rules. -/
def jsSlice (l : List ℚ) (a b : ℤ) : List ℚ :=
  (l.take (jsIndex l.length b)).drop (jsIndex l.length a)

/-- Build the slice for one consecutive beat pair
(src/app/brainrotProcessor.ts, lines 74-82). -/
def slicePair (audioData : List ℚ) (sr : ℕ) (p : ℚ × ℚ) : Slice :=
  { audioData := jsSlice audioData ⌊p.1 * (sr : ℚ)⌋ ⌊p.2 * (sr : ℚ)⌋
    startTime := p.1
    duration := p.2 - p.1 }

/-- The duration filter of src/app/brainrotProcessor.ts, line 73. -/
def keepPair (minD maxD : ℚ) (p : ℚ × ℚ) : Bool :=
  decide (minD ≤ p.2 - p.1 ∧ p.2 - p.1 ≤ maxD)

/-- The slice-extraction loop over one track
(src/app/brainrotProcessor.ts, lines 67-85): for each consecutive beat pair,
keep the sample range iff the duration is within the window. -/
def extractFromTrack (audioData : List ℚ) (sr : ℕ) (minD maxD : ℚ) :
    List ℚ → List Slice
  | t1 :: t2 :: rest =>
      (if minD ≤ t2 - t1 ∧ t2 - t1 ≤ maxD then [slicePair audioData sr (t1, t2)] else []) ++
        extractFromTrack audioData sr minD maxD (t2 :: rest)
  | _ => []

/-- `[slices[i], slices[j]] = [slices[j], slices[i]]` with both indices in
range (the only case the shuffle produces). -/
def swapAt {α : Type} (l : List α) (i j : ℕ) : List α :=
  match l[i]?, l[j]? with
  | some a, some b => (l.set i b).set j a
  | _, _ => l

/-- The Fisher-Yates loop of src/app/brainrotProcessor.ts, lines 94-97:
`for (i = n-1; i > 0; i--) j = floor(random()*(i+1)); swap i j`.  The k-th
`Math.random()` outcome is `rand k`. -/
def shuffleGo {α : Type} (rand : ℕ → ℚ) : List α → ℕ → ℕ → List α
  | l, _, 0 => l
  | l, k, n + 1 =>
      shuffleGo rand (swapAt l (n + 1) (⌊rand k * ((n : ℚ) + 2)⌋).toNat) (k + 1) n

/-- In-place shuffle of the whole slice list. -/
def jsShuffle {α : Type} (rand : ℕ → ℚ) (l : List α) : List α :=
  shuffleGo rand l 0 (l.length - 1)

/-- Shuffle then truncate (src/app/brainrotProcessor.ts, lines 93-101):
`numSlices = Math.min(slices.length, Math.floor(Math.random() * 30) + 30)`,
then `slices.slice(0, numSlices)`.  `rcount` is the draw for the count. -/
def shuffleAndSelect {α : Type} (rand : ℕ → ℚ) (rcount : ℚ) (slices : List α) : List α :=
  let shuffled := jsShuffle rand slices
  let numSlices := min shuffled.length ((⌊rcount * 30⌋).toNat + 30)
  shuffled.take numSlices

/-- A decoded input track: channel-0 samples plus its sample rate. -/
structure Track where
  samples : List ℚ
  sampleRate : ℕ
deriving DecidableEq

/-- The produced `AudioBuffer`: samples plus the rate it is created with. -/
structure OutBuf where
  samples : List ℚ
  sampleRate : ℕ
deriving DecidableEq

/-- Slice extraction over all tracks (src/app/brainrotProcessor.ts,
lines 61-87), each track sliced with its own sample rate and the hard-coded
duration window `[0.2, 2.0]`. -/
def allSlices (tracks : List Track) (beatsPerTrack : List (List ℚ)) : List Slice :=
  (tracks.zip beatsPerTrack).flatMap
    (fun tb => extractFromTrack tb.1.samples tb.1.sampleRate (1/5) 2 tb.2)

/-- The sample-domain core of `generateBrainrotSong`
(src/app/brainrotProcessor.ts, lines 31-161).  Beat detection is external;
`beatsPerTrack` injects its per-track output and `rand`, `rcount` inject the
`Math.random()` draws.  `audioBuffers[0].sampleRate` is read unconditionally,
so an empty track list throws: modelled as `none`.  The crossfade length is
`Math.floor(0.01 * sampleRate)` of the first track. -/
def generateBrainrotSong (tracks : List Track) (beatsPerTrack : List (List ℚ))
    (rand : ℕ → ℚ) (rcount : ℚ) : Option OutBuf :=
  match tracks with
  | [] => none
  | t0 :: _ =>
      let selected := shuffleAndSelect rand rcount (allSlices tracks beatsPerTrack)
      let sampleRate := t0.sampleRate
      let crossfadeSamples : ℕ := (⌊(1/100 : ℚ) * (sampleRate : ℚ)⌋).toNat
      some { samples := composite crossfadeSamples (selected.map Slice.audioData)
             sampleRate := sampleRate }

/-! ### Helper lemmas -/

theorem neg_one_le_clamp1 (x : ℚ) : -1 ≤ clamp1 x := le_max_left _ _

theorem clamp1_le_one (x : ℚ) : clamp1 x ≤ 1 := max_le (by norm_num) (min_le_left _ _)

theorem clamp1_nonneg (x : ℚ) (hx : 0 ≤ x) : 0 ≤ clamp1 x :=
  le_max_of_le_right (le_min (by norm_num) hx)

theorem toInt16_eq_self {n : ℤ} (h1 : -32768 ≤ n) (h2 : n ≤ 32767) : toInt16 n = n := by
  unfold toInt16
  rw [Int.emod_eq_of_lt (by omega) (by omega)]
  omega

theorem truncQ_bounds {x : ℚ} {m : ℕ} (h1 : -(m : ℚ) ≤ x) (h2 : x ≤ (m : ℚ)) :
    -(m : ℤ) ≤ truncQ x ∧ truncQ x ≤ (m : ℤ) := by
  unfold truncQ
  by_cases h : 0 ≤ x
  · rw [if_pos h]
    constructor
    · have h0 : (0 : ℤ) ≤ ⌊x⌋ := Int.le_floor.mpr (by exact_mod_cast h)
      omega
    · calc ⌊x⌋ ≤ ⌊((m : ℤ) : ℚ)⌋ := Int.floor_mono (by push_cast; exact h2)
        _ = (m : ℤ) := Int.floor_intCast _
  · rw [if_neg h]
    have hx : -x ≤ (m : ℚ) := by linarith
    have hx0 : 0 ≤ -x := by linarith
    constructor
    · have : ⌊-x⌋ ≤ (m : ℤ) := by
        calc ⌊-x⌋ ≤ ⌊((m : ℤ) : ℚ)⌋ := Int.floor_mono (by push_cast; exact hx)
          _ = (m : ℤ) := Int.floor_intCast _
      omega
    · have : (0 : ℤ) ≤ ⌊-x⌋ := Int.le_floor.mpr (by exact_mod_cast hx0)
      omega

theorem wavPreWrap_bounds (x : ℚ) : -32768 ≤ wavPreWrap x ∧ wavPreWrap x ≤ 32767 := by
  have h1 := neg_one_le_clamp1 x
  have h2 := clamp1_le_one x
  unfold wavPreWrap
  by_cases h : clamp1 x < 0
  · rw [if_pos h]
    have hb := truncQ_bounds (x := clamp1 x * 32768) (m := 32768)
      (by push_cast; nlinarith) (by push_cast; nlinarith)
    have hle : truncQ (clamp1 x * 32768) ≤ 0 := by
      unfold truncQ
      rw [if_neg (by nlinarith)]
      have : (0 : ℤ) ≤ ⌊-(clamp1 x * 32768)⌋ := Int.le_floor.mpr (by push_cast; nlinarith)
      omega
    refine ⟨by exact_mod_cast hb.1, by omega⟩
  · rw [if_neg h]
    push_neg at h
    have hb := truncQ_bounds (x := clamp1 x * 32767) (m := 32767)
      (by push_cast; nlinarith) (by push_cast; nlinarith)
    exact ⟨by omega, by exact_mod_cast hb.2⟩

theorem writeAdd_length (buf : List ℚ) (i : ℤ) (v : ℚ) :
    (writeAdd buf i v).length = buf.length := by
  unfold writeAdd
  split <;> simp

theorem writeMul_length (buf : List ℚ) (i : ℤ) (g : ℚ) :
    (writeMul buf i g).length = buf.length := by
  unfold writeMul
  split <;> simp

theorem overlay_length (g : ℚ) :
    ∀ (perc buf : List ℚ) (p : ℤ), (overlay g perc buf p).length = buf.length := by
  intro perc
  induction perc with
  | nil => intro buf p; rfl
  | cons s rest ih =>
      intro buf p
      rw [show overlay g (s :: rest) buf p = overlay g rest (writeAdd buf p (s * g)) (p + 1)
        from rfl]
      rw [ih, writeAdd_length]

theorem processBeat1_length (tick tock : List ℚ) (sr : ℕ) (buf : List ℚ) (t : ℚ)
    (next? : Option ℚ) : (processBeat1 tick tock sr buf t next?).length = buf.length := by
  unfold processBeat1
  rw [overlay_length, overlay_length]

theorem processBeat0_length (tick tock : List ℚ) (sr : ℕ) (buf : List ℚ) (t : ℚ)
    (next? : Option ℚ) : (processBeat0 tick tock sr buf t next?).length = buf.length := by
  cases next?
  · unfold processBeat0; rw [overlay_length]
  · unfold processBeat0; rw [overlay_length, overlay_length]

theorem mixBeats1_length (tick tock : List ℚ) (sr : ℕ) :
    ∀ (beats buf : List ℚ), (mixBeats1 tick tock sr buf beats).length = buf.length := by
  intro beats
  induction beats with
  | nil => intro buf; rfl
  | cons t rest ih =>
      intro buf
      cases rest with
      | nil => exact processBeat1_length tick tock sr buf t none
      | cons t2 r2 =>
          rw [show mixBeats1 tick tock sr buf (t :: t2 :: r2)
              = mixBeats1 tick tock sr (processBeat1 tick tock sr buf t (some t2)) (t2 :: r2)
            from rfl]
          rw [ih, processBeat1_length]

theorem mixBeats0_length (tick tock : List ℚ) (sr : ℕ) :
    ∀ (beats buf : List ℚ), (mixBeats0 tick tock sr buf beats).length = buf.length := by
  intro beats
  induction beats with
  | nil => intro buf; rfl
  | cons t rest ih =>
      intro buf
      cases rest with
      | nil => exact processBeat0_length tick tock sr buf t none
      | cons t2 r2 =>
          rw [show mixBeats0 tick tock sr buf (t :: t2 :: r2)
              = mixBeats0 tick tock sr (processBeat0 tick tock sr buf t (some t2)) (t2 :: r2)
            from rfl]
          rw [ih, processBeat0_length]

theorem duckLoopA_length (da : ℚ) (a : ℕ) (ds sp : ℤ) :
    ∀ (fuel : ℕ) (buf : List ℚ) (i : ℤ),
      (duckLoopA da a ds sp buf i fuel).length = buf.length := by
  intro fuel
  induction fuel with
  | zero => intro buf i; rfl
  | succ m ih =>
      intro buf i
      rw [show duckLoopA da a ds sp buf i (m + 1)
          = duckLoopA da a ds sp (writeMul buf i (duckGainA da a ds sp i)) (i + 1) m from rfl]
      rw [ih, writeMul_length]

theorem duckLoopB_length (da : ℚ) (a k r : ℕ) (p : ℤ) :
    ∀ (fuel : ℕ) (buf : List ℚ) (i : ℕ),
      (duckLoopB da a k r p buf i fuel).length = buf.length := by
  intro fuel
  induction fuel with
  | zero => intro buf i; rfl
  | succ m ih =>
      intro buf i
      rw [show duckLoopB da a k r p buf i (m + 1)
          = if p + (i : ℤ) < (buf.length : ℤ) then
              duckLoopB da a k r p (writeMul buf (p + (i : ℤ)) (duckEnvB da a k r i)) (i + 1) m
            else buf from rfl]
      split
      · rw [ih, writeMul_length]
      · rfl

theorem processBeatA_length (tick : List ℚ) (sr : ℕ) (buf : List ℚ) (t : ℚ) :
    (processBeatA tick sr buf t).length = buf.length := by
  unfold processBeatA
  rw [overlay_length, duckLoopA_length]

theorem processBeatB_length (tick : List ℚ) (sr : ℕ) (buf : List ℚ) (t : ℚ) :
    (processBeatB tick sr buf t).length = buf.length := by
  unfold processBeatB applyDuckB
  rw [overlay_length, duckLoopB_length]

theorem foldl_beats_length (f : List ℚ → ℚ → List ℚ)
    (hf : ∀ buf t, (f buf t).length = buf.length) :
    ∀ (beats : List ℚ) (buf : List ℚ), (beats.foldl f buf).length = buf.length := by
  intro beats
  induction beats with
  | nil => intro buf; rfl
  | cons t rest ih => intro buf; rw [List.foldl_cons, ih, hf]

theorem writeMul_getElem (buf : List ℚ) (i : ℤ) (g : ℚ) (j : ℕ) :
    (writeMul buf i g)[j]? =
      if (j : ℤ) = i ∧ 0 ≤ i ∧ i < (buf.length : ℤ) then (buf[j]?).map (· * g)
      else buf[j]? := by
  unfold writeMul
  by_cases h : 0 ≤ i ∧ i < (buf.length : ℤ)
  · rw [if_pos h]
    by_cases hj : (j : ℤ) = i
    · rw [if_pos ⟨hj, h⟩]
      have hji : j = i.toNat := by omega
      have hlt : j < buf.length := by omega
      rw [← hji, List.getElem?_set_self hlt, List.getElem?_eq_getElem hlt]
      rfl
    · rw [if_neg (by tauto)]
      exact List.getElem?_set_ne (by omega)
  · rw [if_neg h, if_neg (by tauto)]

theorem duckLoopB_getElem (da : ℚ) (a k r : ℕ) (p : ℤ) (hp : 0 ≤ p) :
    ∀ (fuel i : ℕ) (buf : List ℚ) (j : ℕ),
      (duckLoopB da a k r p buf i fuel)[j]? =
        if p + (i : ℤ) ≤ (j : ℤ) ∧ (j : ℤ) < p + (i : ℤ) + (fuel : ℤ) then
          (buf[j]?).map (fun x => x * duckEnvB da a k r (j - p.toNat))
        else buf[j]? := by
  intro fuel
  induction fuel with
  | zero =>
      intro i buf j
      rw [if_neg (by push_cast; omega)]
      rfl
  | succ fuel ih =>
      intro i buf j
      by_cases hlen : p + (i : ℤ) < (buf.length : ℤ)
      · rw [show duckLoopB da a k r p buf i (fuel + 1)
            = duckLoopB da a k r p (writeMul buf (p + (i : ℤ)) (duckEnvB da a k r i))
                (i + 1) fuel from by rw [duckLoopB]; rw [if_pos hlen]]
        rw [ih (i + 1) _ j, writeMul_getElem]
        split
        next hA =>
          split
          next hB => exfalso; omega
          next hB => rw [if_pos (by omega)]
        next hA =>
          split
          next hB =>
            rw [if_pos (by omega)]
            have hi : j - p.toNat = i := by omega
            rw [hi]
          next hB => rw [if_neg (by omega)]
      · rw [show duckLoopB da a k r p buf i (fuel + 1) = buf from by
          rw [duckLoopB]; rw [if_neg hlen]]
        by_cases hc : p + (i : ℤ) ≤ (j : ℤ) ∧ (j : ℤ) < p + (i : ℤ) + ((fuel + 1 : ℕ) : ℤ)
        · rw [if_pos hc, List.getElem?_eq_none (by omega)]
          rfl
        · rw [if_neg hc]

theorem swapAt_length {α : Type} (l : List α) (i j : ℕ) :
    (swapAt l i j).length = l.length := by
  unfold swapAt
  split <;> simp

theorem shuffleGo_length {α : Type} (rand : ℕ → ℚ) :
    ∀ (n k : ℕ) (l : List α), (shuffleGo rand l k n).length = l.length := by
  intro n
  induction n with
  | zero => intro k l; rfl
  | succ m ih =>
      intro k l
      rw [show shuffleGo rand l k (m + 1)
          = shuffleGo rand (swapAt l (m + 1) (⌊rand k * ((m : ℚ) + 2)⌋).toNat) (k + 1) m
        from rfl]
      rw [ih, swapAt_length]

theorem jsShuffle_length {α : Type} (rand : ℕ → ℚ) (l : List α) :
    (jsShuffle rand l).length = l.length := shuffleGo_length rand _ 0 l

theorem composite_length (cross : ℕ) (slices : List (List ℚ)) :
    (composite cross slices).length = (slices.map List.length).sum := by
  unfold composite
  rw [List.length_flatten, List.map_map]
  congr 1
  apply List.map_congr_left
  intro s hs
  simp [processSlice]

theorem map_mul_one (l : List ℚ) : l.map (· * 1) = l := by
  induction l with
  | nil => rfl
  | cons x rest ih => simp [ih]

/-! ### Claim theorems -/

/-- C1: for every original buffer and every base volume, mixing with an empty
beat sequence yields exactly the original scaled by the base volume — 0.5 in
the two simple tick-tock variants, 1.0 in the two ducking variants — and
nothing else changes. -/
theorem C1_empty_beats_scales (original tick tock : List ℚ) (sr : ℕ) :
    processAudioWithBeats original tick tock sr [] = original.map (· * (1/2))
    ∧ processAudioInBrowserTickTock original tick tock sr [] = original.map (· * (1/2))
    ∧ processAudioInBrowserDucking original tick sr [] = original.map (· * 1)
    ∧ processAudioInBrowserSidechain original tick sr [] = original.map (· * 1) := by
  refine ⟨rfl, rfl, ?_, ?_⟩
  · rw [map_mul_one]; rfl
  · rw [map_mul_one]; rfl

/-- C2: quantization clamps to `[-1, 1]` before scaling, the resulting
16-bit integer always lies in `[-32768, 32767]`, and the `setInt16` store of
the WAV writer never wraps around, for every input sample value — including
values far outside `[-1, 1]`. -/
theorem C2_quantize_range (x : ℚ) :
    (-32768 ≤ quantizeSample x ∧ quantizeSample x ≤ 32767)
    ∧ (-32768 ≤ wavQuantizeSample x ∧ wavQuantizeSample x ≤ 32767)
    ∧ wavQuantizeSample x = wavPreWrap x := by
  have h1 := neg_one_le_clamp1 x
  have h2 := clamp1_le_one x
  have hq : -32768 ≤ quantizeSample x ∧ quantizeSample x ≤ 32767 := by
    unfold quantizeSample
    constructor
    · have : ((-32767 : ℤ) : ℚ) ≤ clamp1 x * 32767 := by push_cast; nlinarith
      have := Int.le_floor.mpr this
      omega
    · calc ⌊clamp1 x * 32767⌋ ≤ ⌊((32767 : ℤ) : ℚ)⌋ :=
            Int.floor_mono (by push_cast; nlinarith)
        _ = 32767 := Int.floor_intCast _
  have hw := wavPreWrap_bounds x
  have hid : wavQuantizeSample x = wavPreWrap x := toInt16_eq_self hw.1 hw.2
  exact ⟨hq, by rw [hid]; exact hw, hid⟩

/-- C3: in the browser tick-tock mixer, the tock for a beat at time `t` with
successor `next` is overlaid at `⌊(t + |next - t| / 2) · sr⌋`; for the last
beat (also in a one-beat list) the virtual successor `t + 0.5` makes it land
at `⌊(t + 0.25) · sr⌋`; with beats `[1, 2]` at 44100 Hz the first tock
starts at sample 66150. -/
theorem C3_tock_position (buf tick tock : List ℚ) (sr : ℕ) (t next : ℚ)
    (hnext : next ≠ 0) :
    processBeat1 tick tock sr buf t (some next)
      = overlay (2/5) tock (overlay (2/5) tick buf ⌊t * (sr : ℚ)⌋)
          ⌊(t + |next - t| / 2) * (sr : ℚ)⌋
    ∧ processBeat1 tick tock sr buf t none
      = overlay (2/5) tock (overlay (2/5) tick buf ⌊t * (sr : ℚ)⌋)
          ⌊(t + 1/4) * (sr : ℚ)⌋
    ∧ mixBeats1 tick tock sr buf [t] = processBeat1 tick tock sr buf t none
    ∧ processBeat1 tick tock 44100 buf 1 (some 2)
      = overlay (2/5) tock (overlay (2/5) tick buf 44100) 66150 := by
  refine ⟨?_, ?_, rfl, ?_⟩
  · simp [processBeat1, nextBeatOf, hnext]
  · have harg : t + |nextBeatOf t none - t| / 2 = t + 1/4 := by
      show t + |t + 1/2 - t| / 2 = t + 1/4
      rw [show t + 1/2 - t = (1/2 : ℚ) by ring,
        abs_of_nonneg (by norm_num : (0 : ℚ) ≤ 1/2)]
      norm_num
    unfold processBeat1
    rw [harg]
  · unfold processBeat1
    rw [show nextBeatOf 1 (some 2) = 2 from by norm_num [nextBeatOf]]
    rw [show (1 : ℚ) + |2 - 1| / 2 = ((3 : ℚ)/2) by rw [show (2 : ℚ) - 1 = 1 by norm_num, abs_one]; norm_num]
    rw [show ((3 : ℚ)/2) * ((44100 : ℕ) : ℚ) = ((66150 : ℤ) : ℚ) by push_cast; ring]
    rw [show (1 : ℚ) * ((44100 : ℕ) : ℚ) = ((44100 : ℤ) : ℚ) by push_cast; ring]
    rw [Int.floor_intCast, Int.floor_intCast]

/-- Witness for C3 at beats `[1, 2]`, sampleRate 10: tock of beat 0 lands at
`⌊1.5 · 10⌋ = 15`. -/
theorem C3_tock_position_witness :
    processBeat1 [(1 : ℚ)] [1] 10 [0, 0, 0, 0] 1 (some 2)
      = overlay (2/5) [1] (overlay (2/5) [1] [0, 0, 0, 0] 10) 15 := by
  have h := (C3_tock_position [0, 0, 0, 0] [1] [1] 10 1 2 (by norm_num)).1
  rw [h]
  decide

/-- C5 counterexample: the quantizer uses `Math.floor` — rounding toward
negative infinity — not rounding toward zero: at sample `-0.5` the code
produces `⌊-16383.5⌋ = -16384`, while the claimed toward-zero rule gives
`-16383`. -/
theorem C5_rounding_counterexample :
    quantizeSample (-(1/2)) = -16384
    ∧ quantizeTowardZero (-(1/2)) = -16383
    ∧ quantizeSample (-(1/2)) ≠ quantizeTowardZero (-(1/2)) := by decide

/-- C5 (amended): `quantizeToPCM16` maps every sample, uniformly, by
clamping to `[-1, 1]`, scaling by 32767 and applying `Math.floor` — floor
toward negative infinity, which agrees with truncation toward zero only on
nonnegative values. -/
theorem C5_floor_rounding (buf : List ℚ) (i : ℕ) :
    (quantizeToPCM16 buf).length = buf.length
    ∧ (quantizeToPCM16 buf)[i]? = (buf[i]?).map (fun x => ⌊clamp1 x * 32767⌋)
    ∧ (∀ x : ℚ, 0 ≤ x → quantizeSample x = quantizeTowardZero x) := by
  refine ⟨List.length_map _ _, ?_, ?_⟩
  · simp only [quantizeToPCM16, List.getElem?_map]
    rfl
  · intro x hx
    unfold quantizeSample quantizeTowardZero truncQ
    rw [if_pos (by nlinarith [clamp1_nonneg x hx])]

/-- Witness for C5 at the nonnegative sample `1/2`, where floor and
truncation agree. -/
theorem C5_floor_rounding_witness :
    quantizeSample (1/2) = quantizeTowardZero (1/2) :=
  (C5_floor_rounding [] 0).2.2 (1/2) (by norm_num)

/-- C4 counterexample: with a constant-1 original (30 samples), sample rate
100 (attack 1, release 15), a two-sample silent kick and one beat at 0.1 s
(position 10), the sidechain variant leaves sample 10 at gain 1.0 where the
claimed envelope (window starting at `p - attackSamples`) would already hold
it at `duckAmount = 0.2`; the `audioProcessor.ts` variant leaves sample 24 at
the constant `0.2` where the claimed release ramp would have `21/25`. -/
theorem C4_claim_counterexample :
    (processAudioInBrowserSidechain (List.replicate 30 1) [0, 0] 100 [1/10])[10]? = some 1
    ∧ (duckMixClaimed (List.replicate 30 1) [0, 0] 100 [1/10])[10]? = some (1/5)
    ∧ (processAudioInBrowserDucking (List.replicate 30 1) [0, 0] 100 [1/10])[24]? = some (1/5)
    ∧ (duckMixClaimed (List.replicate 30 1) [0, 0] 100 [1/10])[24]? = some (21/25)
    ∧ ((1 : ℚ) ≠ 1/5) ∧ ((1/5 : ℚ) ≠ 21/25) := by decide

/-- C4 (amended): in the sidechain variant the envelope of a beat at sample
position `p ≥ 0` is applied multiplicatively over exactly the window
`[p, p + sustainSamples + releaseSamples)` clamped to the buffer end — not
`[p - attackSamples, ...)` — where `sustainSamples` is the kick length: the
attack ramp occupies offsets below `attackSamples`, the hold at `duckAmount`
lasts until `sustainSamples`, and the release ramps back to 1.0; every index
outside the window is untouched. -/
theorem C4_duck_window (buf tick : List ℚ) (sr : ℕ) (p : ℤ) (hp : 0 ≤ p) (j : ℕ) :
    (applyDuckB tick sr buf p)[j]? =
      if p ≤ (j : ℤ) ∧
          (j : ℤ) < p + (tick.length : ℤ) + (((⌊(3/20 : ℚ) * (sr : ℚ)⌋).toNat : ℕ) : ℤ) then
        (buf[j]?).map (fun x =>
          x * duckEnvB (1/5) (⌊(1/100 : ℚ) * (sr : ℚ)⌋).toNat tick.length
            (⌊(3/20 : ℚ) * (sr : ℚ)⌋).toNat (j - p.toNat))
      else buf[j]? := by
  have h := duckLoopB_getElem (1/5) (⌊(1/100 : ℚ) * (sr : ℚ)⌋).toNat tick.length
    (⌊(3/20 : ℚ) * (sr : ℚ)⌋).toNat p hp
    (tick.length + (⌊(3/20 : ℚ) * (sr : ℚ)⌋).toNat) 0 buf j
  unfold applyDuckB
  rw [h]
  refine if_congr ?_ rfl rfl
  push_cast
  omega

/-- Witness for C4 at sample rate 100, a one-sample kick and `p = 0`:
index 1 is in the release phase, gain `1/5`. -/
theorem C4_duck_window_witness :
    (applyDuckB [0] 100 (List.replicate 3 1) 0)[1]? = some (1/5) := by
  have h := C4_duck_window (List.replicate 3 1) [0] 100 0 (by norm_num) 1
  rw [h]
  decide

set_option maxRecDepth 8000 in
/-- C6 counterexample: with two constant-1.0 slices of length 100 and
`crossfadeSamples = 10`, sample 0 of each slice gets fade-in gain
`0/10 = 0`, not the claimed `~0.1`. -/
theorem C6_fade_counterexample :
    (composite 10 [List.replicate 100 (1 : ℚ), List.replicate 100 1])[0]? = some 0
    ∧ ((0 : ℚ) ≠ 1/10) := by decide

set_option maxRecDepth 8000 in
/-- C6 (amended): the compositor output is the concatenation of the slices
(length = sum of slice lengths, no gaps); each slice is faded in with gain
`i / crossfadeSamples` over its first `crossfadeSamples` samples — so its
sample 0 has amplitude 0.0 — and faded out with gain
`(len - i) / crossfadeSamples` over the indices `i > len - crossfadeSamples`;
in the 2-slices-of-100, crossfade-10 example the output has length 200,
samples 0 and 100 are 0.0 and samples 99 and 199 are 0.1. -/
theorem C6_crossfade (slices : List (List ℚ)) (cross : ℕ) :
    (composite cross slices).length = (slices.map List.length).sum
    ∧ (composite 10 [List.replicate 100 (1 : ℚ), List.replicate 100 1]).length = 200
    ∧ (composite 10 [List.replicate 100 (1 : ℚ), List.replicate 100 1])[0]? = some 0
    ∧ (composite 10 [List.replicate 100 (1 : ℚ), List.replicate 100 1])[99]? = some (1/10)
    ∧ (composite 10 [List.replicate 100 (1 : ℚ), List.replicate 100 1])[100]? = some 0
    ∧ (composite 10 [List.replicate 100 (1 : ℚ), List.replicate 100 1])[199]? = some (1/10) :=
  ⟨composite_length cross slices, by decide, by decide, by decide, by decide, by decide⟩

/-- C7: slice extraction keeps, for each consecutive beat pair, exactly the
pairs whose duration lies in `[minDuration, maxDuration]`, copying the
sample range `[⌊b_i·sr⌋, ⌊b_(i+1)·sr⌋)`; with beats `[0, 0.5, 3]`,
`minDuration = 0.2` and `maxDuration = 2`, only the `[0, 0.5]` slice is
kept. -/
theorem C7_slice_extraction (audioData : List ℚ) (sr : ℕ) (minD maxD : ℚ)
    (beats : List ℚ) :
    extractFromTrack audioData sr minD maxD beats
      = ((beats.zip beats.tail).filter (keepPair minD maxD)).map (slicePair audioData sr)
    ∧ extractFromTrack (List.replicate 35 (1 : ℚ)) 10 (1/5) 2 [0, 1/2, 3]
      = [{ audioData := List.replicate 5 1, startTime := 0, duration := 1/2 }] := by
  constructor
  · induction beats with
    | nil => rfl
    | cons t1 rest ih =>
        cases rest with
        | nil => rfl
        | cons t2 rest2 =>
            by_cases hc : minD ≤ t2 - t1 ∧ t2 - t1 ≤ maxD
            · simp only [extractFromTrack, if_pos hc, ih, List.tail_cons, List.zip_cons_cons,
                List.filter_cons, keepPair, decide_eq_true_eq, hc, List.map_cons]
              rfl
            · simp only [extractFromTrack, if_neg hc, ih, List.tail_cons, List.zip_cons_cons,
                List.filter_cons, keepPair, decide_eq_true_eq, hc, List.map_cons]
              rfl
  · decide

/-- C8: for every slice list and every outcome of the random source in
`[0, 1)`, the selection returns at most `slices.length` slices and at least
`min slices.length 30`, the drawn count lying in the default 30-60 range. -/
theorem C8_selection_bounds {α : Type} (slices : List α) (rand : ℕ → ℚ) (r : ℚ)
    (h0 : 0 ≤ r) (h1 : r < 1) :
    (shuffleAndSelect rand r slices).length ≤ slices.length
    ∧ min slices.length 30 ≤ (shuffleAndSelect rand r slices).length
    ∧ 30 ≤ (⌊r * 30⌋).toNat + 30 ∧ (⌊r * 30⌋).toNat + 30 ≤ 60 := by
  have hcount : (⌊r * 30⌋).toNat + 30 ≤ 60 := by
    have hf : ⌊r * 30⌋ < 30 := Int.floor_lt.mpr (by push_cast; nlinarith)
    omega
  have hsel : (shuffleAndSelect rand r slices).length
      = min slices.length ((⌊r * 30⌋).toNat + 30) := by
    unfold shuffleAndSelect
    rw [List.length_take, jsShuffle_length]
    omega
  refine ⟨?_, ?_, by omega, hcount⟩
  · rw [hsel]; exact min_le_left _ _
  · rw [hsel]
    exact le_min (min_le_left _ _) (le_trans (min_le_right _ _) (by omega))

/-- Witness for C8 with three slices and both random draws equal to 0: the
count is 30, all three slices are returned. -/
theorem C8_selection_bounds_witness :
    (0 : ℚ) ≤ 0 ∧ (0 : ℚ) < 1
    ∧ (shuffleAndSelect (fun _ => (0 : ℚ)) 0 [(1 : ℚ), 2, 3]).length ≤ 3 :=
  ⟨le_refl 0, by norm_num,
    (C8_selection_bounds [(1 : ℚ), 2, 3] (fun _ => (0 : ℚ)) 0 (le_refl 0) (by norm_num)).1⟩

/-- C9: every mixer is total and returns a buffer of exactly the original
length for every beat list and percussion length — beats whose overlay would
run past the end included — and a guarded write at any index outside
`[0, len)` leaves the buffer unchanged. -/
theorem C9_overlay_safety (original tick tock : List ℚ) (sr : ℕ) (beats : List ℚ) :
    (processAudioWithBeats original tick tock sr beats).length = original.length
    ∧ (processAudioInBrowserTickTock original tick tock sr beats).length = original.length
    ∧ (processAudioInBrowserDucking original tick sr beats).length = original.length
    ∧ (processAudioInBrowserSidechain original tick sr beats).length = original.length
    ∧ (∀ (buf : List ℚ) (i : ℤ) (v : ℚ),
        ¬(0 ≤ i ∧ i < (buf.length : ℤ)) → writeAdd buf i v = buf)
    ∧ (∀ (buf : List ℚ) (i : ℤ) (g : ℚ),
        ¬(0 ≤ i ∧ i < (buf.length : ℤ)) → writeMul buf i g = buf) := by
  refine ⟨?_, ?_, ?_, ?_, ?_, ?_⟩
  · unfold processAudioWithBeats
    rw [mixBeats0_length, List.length_map]
  · unfold processAudioInBrowserTickTock
    rw [mixBeats1_length, List.length_map]
  · exact foldl_beats_length _ (processBeatA_length tick sr) beats original
  · exact foldl_beats_length _ (processBeatB_length tick sr) beats original
  · intro buf i v h
    unfold writeAdd
    rw [if_neg h]
  · intro buf i g h
    unfold writeMul
    rw [if_neg h]

/-- Witness for C9: a three-sample kick overlaid at a beat near the end of a
one-sample original, and a write at index 5 of a one-element buffer. -/
theorem C9_overlay_safety_witness :
    (processAudioWithBeats [(1 : ℚ)] [1, 1, 1] [1] 5 [0]).length = 1
    ∧ writeAdd [(1 : ℚ)] 5 7 = [1] :=
  ⟨(C9_overlay_safety [(1 : ℚ)] [1, 1, 1] [1] 5 [0]).1,
    (C9_overlay_safety [(1 : ℚ)] [1, 1, 1] [1] 5 [0]).2.2.2.2.1 [(1 : ℚ)] 5 7 (by decide)⟩

/-- C10: the brainrot pipeline is undefined for an empty track list (the
first track's sample rate is read unconditionally); otherwise the output
buffer carries exactly the first track's sample rate and its samples are the
crossfaded raw concatenation of the selected slices, with no resampling —
as the concrete two-track example with rates 10 and 20 shows: the 20 Hz
track's samples are copied verbatim into a 10 Hz output. -/
theorem C10_sample_rate (beatsPerTrack : List (List ℚ)) (rand : ℕ → ℚ)
    (rcount : ℚ) (t0 : Track) (rest : List Track) :
    generateBrainrotSong [] beatsPerTrack rand rcount = none
    ∧ (∃ out, generateBrainrotSong (t0 :: rest) beatsPerTrack rand rcount = some out
        ∧ out.sampleRate = t0.sampleRate
        ∧ out.samples = composite (⌊(1/100 : ℚ) * (t0.sampleRate : ℚ)⌋).toNat
            ((shuffleAndSelect rand rcount (allSlices (t0 :: rest) beatsPerTrack)).map
              Slice.audioData))
    ∧ generateBrainrotSong
        [{ samples := List.replicate 12 1, sampleRate := 10 },
         { samples := List.replicate 30 2, sampleRate := 20 }]
        [[0, 1/2], [0, 1]] (fun _ => 0) 0
      = some { samples := List.replicate 20 2 ++ List.replicate 5 1, sampleRate := 10 } :=
  ⟨rfl, ⟨_, rfl, rfl, rfl⟩, by decide⟩

end Hardstyle
